import Mathlib

/-!
# Vision Price Hunt — verification of the Multi-Source Offer Aggregation & Ranking Engine
and the frontend components.

The engine (SimilarityScorer, FetchOrchestrator, Deduplicator, Classifier/Ranker) is
specified in spec.md §3–§4; the repository tree available here contains its callers and
documentation but not the engine sources, so the engine definitions below are modelled
from the spec. The frontend components (`handleImageUpload`, `ImageUpload.handleFile`,
`ProductCard.getAvailabilityText`) are embedded directly from the TypeScript sources.

Monetary amounts and scores are modelled as rationals (ℚ); timestamps as opaque strings
or naturals.
-/

namespace VisionPriceHunt

/-- Modelled from the spec: the availability enum of a RawOffer (spec §3,
`availability: enum{InStock, LimitedStock, OutOfStock, Unknown}`). -/
inductive Availability
  | inStock
  | limitedStock
  | outOfStock
  | unknown
deriving DecidableEq, Repr

/-- Modelled from the spec: ProductQuery (spec §3) — the normalized description used to
drive search and scoring. `name` is required; all other fields optional. -/
structure ProductQuery where
  name : String
  brand : Option String
  category : Option String
  description : Option String
  extractedText : Option String
deriving DecidableEq, Repr

/-- Modelled from the spec: RawOffer (spec §3) — a single listing as returned by one
source adapter, before deduplication. -/
structure RawOffer where
  sourceName : String
  title : String
  brand : Option String
  category : Option String
  description : Option String
  price : ℚ
  currency : String
  url : String
  availability : Availability
  observedAt : Nat
deriving DecidableEq, Repr

/-- Modelled from the spec: MatchGroup (spec §3) — one or more RawOffers judged to refer
to the same physical product. `representativeOffer` is the offer chosen to represent the
group's descriptive text (always `members[0]` for groups built by the Deduplicator). -/
structure MatchGroup where
  representativeOffer : RawOffer
  members : List RawOffer
  similarityScore : ℚ
  isExactMatch : Bool
deriving DecidableEq, Repr

/-- Modelled from the spec: AggregationResult (spec §3) — the engine's output. -/
structure AggregationResult where
  exactMatches : List MatchGroup
  similarProducts : List MatchGroup
  sourcesQueried : Nat
  sourcesSucceeded : Nat
  elapsedMs : ℚ
deriving DecidableEq, Repr

/-! ## SimilarityScorer (spec §4.1), modelled from the spec -/

/-- ASCII lower-casing of a string, character by character. -/
def lowerStr (s : String) : String :=
  String.mk (s.data.map Char.toLower)

/-- Modelled from the spec: tokenization worker — walk the characters, accumulate
alphanumeric runs (lower-cased), and emit each completed run as a token. -/
def tokenizeAux : List Char → List Char → List String
  | acc, [] => if acc.isEmpty then [] else [String.mk acc.reverse]
  | acc, c :: rest =>
    if c.isAlphanum then tokenizeAux (c.toLower :: acc) rest
    else if acc.isEmpty then tokenizeAux [] rest
    else String.mk acc.reverse :: tokenizeAux [] rest

/-- Modelled from the spec: the token list of a string — lower-cased, split on
non-alphanumeric boundaries, empty fragments dropped (spec §4.1). -/
def tokens (s : String) : List String :=
  tokenizeAux [] s.data

/-- Modelled from the spec: the token set of a string (spec §4.1 — token-set based
similarity). -/
def tokenSet (s : String) : Finset String :=
  (tokens s).toFinset

/-- Modelled from the spec: Jaccard similarity over token sets (spec §4.1). Two empty
token sets (both strings token-free) count as identical, score 1, so the similarity of a
string with itself is always 1. -/
def jaccard (a b : Finset String) : ℚ :=
  if a ∪ b = ∅ then 1 else ((a ∩ b).card : ℚ) / ((a ∪ b).card : ℚ)

/-- Modelled from the spec: the symmetric, deterministic bag-of-words text similarity of
§4.1 (token-set Jaccard). -/
def textSim (s t : String) : ℚ :=
  jaccard (tokenSet s) (tokenSet t)

/-- Modelled from the spec: the brand/category sub-score rule of §4.1 — 1.0 if both
present and case-insensitively equal, 0.0 if both present and unequal, 0.5 (neutral) if
either side is absent. Used for both the brand and the category sub-scores. -/
def fieldScore (qf cf : Option String) : ℚ :=
  match qf, cf with
  | some q, some c => if lowerStr q = lowerStr c then 1 else 0
  | _, _ => 1/2

/-- Modelled from the spec: description sub-score (spec §4.1) — the text-similarity
function applied to `query.description` vs `candidate.description`, 0.5 neutral if
either is absent. -/
def descScore (q : ProductQuery) (c : RawOffer) : ℚ :=
  match q.description, c.description with
  | some qd, some cd => textSim qd cd
  | _, _ => 1/2

/-- Modelled from the spec: the query-side text blob — `query.name` with
`extractedText` concatenated when present (spec §4.1). -/
def queryText (q : ProductQuery) : String :=
  match q.extractedText with
  | some t => q.name ++ " " ++ t
  | none => q.name

/-- Modelled from the spec: the candidate-side text blob — `candidate.title` with
`candidate.description` concatenated when present (spec §4.1). -/
def candText (c : RawOffer) : String :=
  match c.description with
  | some d => c.title ++ " " ++ d
  | none => c.title

/-- Modelled from the spec: the weighted blend of §4.1 with the default weights —
title/text similarity 0.5, brand 0.25, category 0.15, description 0.10 (weights sum
to 1). This is the score of a validated (non-empty-name) query. -/
def scoreValid (q : ProductQuery) (c : RawOffer) : ℚ :=
  (1/2) * textSim (queryText q) (candText c)
    + (1/4) * fieldScore q.brand c.brand
    + (3/20) * fieldScore q.category c.category
    + (1/10) * descScore q c

/-- Modelled from the spec: the engine's error taxonomy visible to callers (spec §7) —
`InvalidQueryError` is the only user-visible failure. -/
inductive EngineError
  | invalidQuery
deriving DecidableEq, Repr

/-- Modelled from the spec: `SimilarityScorer.score` (spec §4.1) — fails with
`InvalidQueryError` when `query.name` is empty, otherwise returns the weighted blend. -/
def score (q : ProductQuery) (c : RawOffer) : Except EngineError ℚ :=
  if q.name = "" then Except.error EngineError.invalidQuery else Except.ok (scoreValid q c)

/-! ## Deduplicator (spec §4.4), modelled from the spec -/

/-- Modelled from the spec: the dedupe-merge threshold (spec §4.4, default 0.85). -/
def mergeThreshold : ℚ := 17/20

/-- Modelled from the spec: a fresh group with a single offer as its sole (and
representative) member (spec §4.4). -/
def newGroup (o : RawOffer) : MatchGroup :=
  { representativeOffer := o, members := [o], similarityScore := 0, isExactMatch := false }

/-- Modelled from the spec: append an offer to the member list of the group at index
`i`, leaving every other group unchanged (spec §4.4). -/
def appendToGroup : List MatchGroup → Nat → RawOffer → List MatchGroup
  | [], _, _ => []
  | g :: gs, 0, o => { g with members := g.members ++ [o] } :: gs
  | g :: gs, n + 1, o => g :: appendToGroup gs n o

/-- Modelled from the spec: one step of the incremental clustering of §4.4 — compute
title-similarity against the representative of every existing group; when the maximum
exceeds the merge threshold, append the offer to the first group attaining that maximum
(ties broken by iteration order); otherwise start a new group. -/
def addOffer (gs : List MatchGroup) (o : RawOffer) : List MatchGroup :=
  let sims := gs.map fun g => textSim o.title g.representativeOffer.title
  let mx := sims.foldl max 0
  if mergeThreshold < mx then
    match sims.findIdx? (fun s => s == mx) with
    | some i => appendToGroup gs i o
    | none => gs ++ [newGroup o]
  else gs ++ [newGroup o]

/-- Modelled from the spec: `Deduplicator.group` (spec §4.4) — fold the offers one at a
time, in the order received, through the incremental clustering step. -/
def group (offers : List RawOffer) : List MatchGroup :=
  offers.foldl addOffer []

/-- Modelled from the spec: the canonical key imposed on fetched offers before grouping
(spec §5 — sort by `sourceName` then `url`). -/
def offerKey (o : RawOffer) : String × String :=
  (o.sourceName, o.url)

/-- Modelled from the spec: the Boolean comparison realising the canonical
(`sourceName`, `url`) lexicographic order of spec §5. Strings are compared through the
lexicographic order on their character lists. -/
def offerKeyLE (a b : RawOffer) : Bool :=
  decide (a.sourceName.data < b.sourceName.data)
    || (a.sourceName == b.sourceName && decide (a.url.data ≤ b.url.data))

/-- Modelled from the spec: the canonical ordering pass of spec §5 — sort the fetched
offers by (`sourceName`, `url`) before grouping, so that arrival order cannot change the
output. -/
def canonSort (offers : List RawOffer) : List RawOffer :=
  offers.mergeSort offerKeyLE

/-! ## Classifier / Ranker (spec §4.5), modelled from the spec -/

/-- Modelled from the spec: the exact-match classification threshold
(spec §4.5, default 0.85). -/
def exactMatchThreshold : ℚ := 17/20

/-- Modelled from the spec: the similar classification threshold
(spec §4.5, default 0.5). -/
def similarThreshold : ℚ := 1/2

/-- Modelled from the spec: the members of a group that are in stock (spec §4.5 — only
in-stock members are eligible as the representative price when any exist). -/
def inStockMembers (g : MatchGroup) : List RawOffer :=
  g.members.filter fun o => o.availability == Availability.inStock

/-- Modelled from the spec: the members eligible to provide the representative price
(spec §4.5) — the in-stock members, or all members when none is in stock. -/
def bestPool (g : MatchGroup) : List RawOffer :=
  if (inStockMembers g).isEmpty then g.members else inStockMembers g

/-- Modelled from the spec: the offer providing the group's representative price
(spec §4.5) — the lowest-priced in-stock member, falling back to the lowest-priced
member of any availability when the group has no in-stock members. Among equal prices
the first such member is kept. -/
def bestOffer (g : MatchGroup) : RawOffer :=
  match bestPool g with
  | [] => g.representativeOffer
  | x :: xs => xs.foldl (fun b o => if o.price < b.price then o else b) x

/-- Modelled from the spec: the primary ordering key of §4.5 — the group's
representative (lowest eligible) price. -/
def keyPrice (g : MatchGroup) : ℚ :=
  (bestOffer g).price

/-- Modelled from the spec: the SourceTrust table lookup (spec §3, §4.5) — unknown
sources fall back to the configured default weight, never fail. -/
def lookupTrust (trust : List (String × ℚ)) (dflt : ℚ) (s : String) : ℚ :=
  match trust.find? (fun p => p.1 == s) with
  | some p => p.2
  | none => dflt

/-- Modelled from the spec: the tertiary ordering key of §4.5 — the trust weight of the
source providing the group's lowest eligible price. -/
def keyTrust (trust : List (String × ℚ)) (dflt : ℚ) (g : MatchGroup) : ℚ :=
  lookupTrust trust dflt (bestOffer g).sourceName

/-- Modelled from the spec: the composite ordering of §4.5 on position-tagged groups —
ascending representative price, then descending similarity score, then descending source
trust, then ascending original position (the stable-sort tie-break). -/
def rankLE (trust : List (String × ℚ)) (dflt : ℚ) (a b : Nat × MatchGroup) : Bool :=
  decide (keyPrice a.2 < keyPrice b.2
    ∨ (keyPrice a.2 = keyPrice b.2
        ∧ (b.2.similarityScore < a.2.similarityScore
            ∨ (a.2.similarityScore = b.2.similarityScore
                ∧ (keyTrust trust dflt b.2 < keyTrust trust dflt a.2
                    ∨ (keyTrust trust dflt a.2 = keyTrust trust dflt b.2
                        ∧ a.1 ≤ b.1))))))

/-- Modelled from the spec: the groups classified "exact" — `similarityScore >=
exactMatchThreshold` (spec §4.5). -/
def exactBucket (groups : List MatchGroup) : List MatchGroup :=
  groups.filter fun g => decide (exactMatchThreshold ≤ g.similarityScore)

/-- Modelled from the spec: the groups classified "similar" — `similarThreshold <=
similarityScore < exactMatchThreshold` (spec §4.5); groups below `similarThreshold`
fall in neither bucket. -/
def similarBucket (groups : List MatchGroup) : List MatchGroup :=
  groups.filter fun g =>
    decide (similarThreshold ≤ g.similarityScore) && decide (g.similarityScore < exactMatchThreshold)

/-- Modelled from the spec: sort one bucket by the composite key of §4.5 over
position-tagged groups; tags record the original group-creation order within the
bucket, realising the stable sort. -/
def rankedTagged (trust : List (String × ℚ)) (dflt : ℚ) (l : List MatchGroup) :
    List (Nat × MatchGroup) :=
  l.enum.mergeSort (rankLE trust dflt)

/-- Modelled from the spec: the ordered bucket, tags stripped (spec §4.5). -/
def rankBucket (trust : List (String × ℚ)) (dflt : ℚ) (l : List MatchGroup) :
    List MatchGroup :=
  (rankedTagged trust dflt l).map Prod.snd

/-- Modelled from the spec: `rank` (spec §4.5) — partition the scored groups into the
exact and similar buckets, drop groups below `similarThreshold`, order each bucket by
the composite key, and attach the orchestrator's observability counters. -/
def rank (trust : List (String × ℚ)) (dflt : ℚ) (groups : List MatchGroup)
    (queried succeeded : Nat) (elapsed : ℚ) : AggregationResult :=
  { exactMatches := rankBucket trust dflt (exactBucket groups)
    similarProducts := rankBucket trust dflt (similarBucket groups)
    sourcesQueried := queried
    sourcesSucceeded := succeeded
    elapsedMs := elapsed }

/-! ## FetchOrchestrator (spec §4.3), modelled from the spec -/

/-- Modelled from the spec: the resolved outcome of one adapter after the orchestrator's
per-adapter timeout and retry policy (spec §4.3) — either the offers it produced (a
success, possibly with zero offers) or a recorded failure (timeout or error after
exhausting retries). Real-time behaviour (timeouts, backoff, concurrency) is abstracted
into this resolved outcome. -/
inductive FetchOutcome
  | success (offers : List RawOffer)
  | failure
deriving DecidableEq, Repr

/-- Modelled from the spec: the offers collected from the resolved adapter outcomes —
failed adapters contribute nothing; the request is never aborted (spec §4.3). -/
def collectOffers (rs : List FetchOutcome) : List RawOffer :=
  rs.foldr
    (fun r acc =>
      match r with
      | FetchOutcome.success os => os ++ acc
      | FetchOutcome.failure => acc)
    []

/-- Modelled from the spec: the number of adapters that succeeded (spec §4.3,
`sourcesSucceeded`). -/
def countSucceeded (rs : List FetchOutcome) : Nat :=
  rs.countP fun r =>
    match r with
    | FetchOutcome.success _ => true
    | FetchOutcome.failure => false

/-- Modelled from the spec: the scoring stage (spec §2) — each group's
`similarityScore` is computed once against the query, via the group's representative
offer, and `isExactMatch` records the §4.5 classification. -/
def scoreGroups (q : ProductQuery) (gs : List MatchGroup) : List MatchGroup :=
  gs.map fun g =>
    { g with
      similarityScore := scoreValid q g.representativeOffer
      isExactMatch := decide (exactMatchThreshold ≤ scoreValid q g.representativeOffer) }

/-- Modelled from the spec: the whole aggregation pipeline (spec §2, §4.3) for a
validated query — collect the resolved adapter outcomes, canonically order, group,
score, classify and rank. Total: adapter failures are absorbed, never raised. -/
def aggregate (q : ProductQuery) (rs : List FetchOutcome) (trust : List (String × ℚ))
    (dflt : ℚ) (elapsed : ℚ) : AggregationResult :=
  rank trust dflt (scoreGroups q (group (canonSort (collectOffers rs))))
    rs.length (countSucceeded rs) elapsed

/-! ## Frontend (embedded from the TypeScript sources under src/) -/

namespace Frontend

/-- Frontend `price_info` shape (SearchResults.tsx / ProductCard.tsx `ProductOffer`). -/
structure PriceInfo where
  price : ℚ
  currency : String
  source : String
  url : String
  availability : String
  lastUpdated : String
deriving DecidableEq, Repr

/-- Frontend `product_info` shape (ProductCard.tsx `ProductOffer`). -/
structure FEProductInfo where
  name : String
  brand : Option String
  category : Option String
  description : Option String
deriving DecidableEq, Repr

/-- Frontend `ProductOffer` (ProductCard.tsx). -/
structure FEOffer where
  productInfo : FEProductInfo
  priceInfo : PriceInfo
  similarityScore : ℚ
deriving DecidableEq, Repr

/-- Frontend `SearchResponse` (SearchResults.tsx). -/
structure FESearchResponse where
  exactMatches : List FEOffer
  similarProducts : List FEOffer
  processingTime : ℚ
  queryId : String
deriving DecidableEq, Repr

/-- Upload-stage `product_info` shape (page `handleImageUpload` forwards
`uploadData.product_info` as the search request body). -/
structure UploadProductInfo where
  name : String
  brand : Option String
  category : Option String
  description : Option String
  extractedText : Option String
  confidence : ℚ
deriving DecidableEq, Repr

/-- Outcome of one `fetch` call as observed by `handleImageUpload`: a parsed ok body, a
non-ok response (the code then throws), or a thrown network error. -/
inductive HttpOutcome (α : Type)
  | ok (body : α)
  | notOk
  | threw
deriving DecidableEq, Repr

/-- The hard-coded mock `SearchResponse` built in the catch branch of the Home page's
`handleImageUpload` (src/unnamed/part_000). `now` stands for
`new Date().toISOString()`. -/
def mockResponse (now : String) : FESearchResponse :=
  { exactMatches :=
      [ { productInfo :=
            { name := "iPhone 15 Pro Max 256GB Space Black"
              brand := some "Apple"
              category := some "Electronics"
              description := some "Latest iPhone with A17 Pro chip and titanium design" }
          priceInfo :=
            { price := 119999/100
              currency := "USD"
              source := "Apple Store"
              url := "https://apple.com"
              availability := "in_stock"
              lastUpdated := now }
          similarityScore := 95/100 }
      , { productInfo :=
            { name := "iPhone 15 Pro Max 256GB Space Black"
              brand := some "Apple"
              category := some "Electronics"
              description := some "iPhone 15 Pro Max - Factory Unlocked" }
          priceInfo :=
            { price := 114999/100
              currency := "USD"
              source := "Amazon"
              url := "https://amazon.com"
              availability := "in_stock"
              lastUpdated := now }
          similarityScore := 93/100 } ]
    similarProducts :=
      [ { productInfo :=
            { name := "iPhone 15 Pro 128GB Space Black"
              brand := some "Apple"
              category := some "Electronics"
              description := some "iPhone 15 Pro with A17 Pro chip" }
          priceInfo :=
            { price := 99999/100
              currency := "USD"
              source := "Best Buy"
              url := "https://bestbuy.com"
              availability := "in_stock"
              lastUpdated := now }
          similarityScore := 85/100 } ]
    processingTime := 234/100
    queryId := "demo-query-123" }

/-- The Home page's `handleImageUpload` (src/unnamed/part_000): upload the file; on a
non-ok upload response throw; otherwise POST the extracted `product_info` to the search
endpoint; on a non-ok search response throw; on success store the parsed search body.
Every thrown error lands in the catch branch, which stores the mock response. The
returned value is the `searchResults` state set by the handler. -/
def handleImageUpload (now : String) (upload : HttpOutcome UploadProductInfo)
    (search : UploadProductInfo → HttpOutcome FESearchResponse) : FESearchResponse :=
  match upload with
  | HttpOutcome.ok info =>
    match search info with
    | HttpOutcome.ok resp => resp
    | HttpOutcome.notOk => mockResponse now
    | HttpOutcome.threw => mockResponse now
  | HttpOutcome.notOk => mockResponse now
  | HttpOutcome.threw => mockResponse now

/-- A browser `File` as observed by `ImageUpload.handleFile`: its name, MIME type and
size in bytes. -/
structure BrowserFile where
  name : String
  mimeType : String
  size : Nat
deriving DecidableEq, Repr

/-- What `ImageUpload.handleFile` does with a file: reject it with an alert, or set the
preview and invoke the `onUpload` callback. -/
inductive UploadAction
  | rejectedWithAlert
  | uploaded
deriving DecidableEq, Repr

/-- Prefix test on strings, embedding JavaScript `String.startsWith`. -/
def strStartsWith (s p : String) : Bool :=
  p.data.isPrefixOf s.data

/-- `ImageUpload.handleFile` (src/frontend/src/components/ImageUpload.tsx, lines
50–59): alert and return unless `file.type` starts with "image/"; otherwise set the
preview and call `onUpload(file)`. No other check is performed. -/
def handleFile (f : BrowserFile) : UploadAction :=
  if !(strStartsWith f.mimeType "image/") then UploadAction.rejectedWithAlert
  else UploadAction.uploaded

/-- Substring test on character lists, embedding JavaScript `String.includes`. -/
def listContainsSub (pat : List Char) : List Char → Bool
  | [] => pat.isEmpty
  | c :: rest => pat.isPrefixOf (c :: rest) || listContainsSub pat rest

/-- Substring test on strings, embedding JavaScript `String.includes`. -/
def strContains (s pat : String) : Bool :=
  listContainsSub pat.data s.data

/-- `ProductCard.getAvailabilityText` (src/unnamed/part_001, lines 221–229): "In Stock"
when the lower-cased availability contains "in_stock", else "Limited Stock" when it
contains "limited", else "Check Availability". -/
def getAvailabilityText (availability : String) : String :=
  if strContains (lowerStr availability) "in_stock" then "In Stock"
  else if strContains (lowerStr availability) "limited" then "Limited Stock"
  else "Check Availability"

end Frontend

/-! ## Theorems -/

/-- The bag-of-words similarity of any string with itself is 1: the token sets
coincide, so either both are empty (scored 1 by convention) or the Jaccard ratio is
`card / card = 1`. -/
theorem textSim_self (s : String) : textSim s s = 1 := by
  unfold textSim jaccard
  rcases eq_or_ne (tokenSet s ∪ tokenSet s) ∅ with h | h
  · rw [if_pos h]
  · rw [if_neg h, Finset.union_self, Finset.inter_self]
    rw [Finset.union_self] at h
    have hpos : 0 < (tokenSet s).card :=
      Finset.card_pos.mpr (Finset.nonempty_iff_ne_empty.mpr h)
    exact div_self (by exact_mod_cast Nat.pos_iff_ne_zero.mp hpos)

/-- C5: `SimilarityScorer.score` fails with `InvalidQueryError` exactly when the
query's name is the empty string; for every query with non-empty name it returns the
weighted blend and raises no error. -/
theorem score_invalidQuery_iff_empty_name (q : ProductQuery) (c : RawOffer) :
    (score q c = Except.error EngineError.invalidQuery ↔ q.name = "") ∧
    (q.name ≠ "" → score q c = Except.ok (scoreValid q c)) := by
  by_cases h : q.name = "" <;> simp [score, h]

/-- C5 witness: at a concrete empty-name query the scorer errors, and at a concrete
valid query it succeeds. -/
theorem score_invalidQuery_iff_empty_name_witness :
    (score ⟨"", none, none, none, none⟩
        ⟨"s", "t", none, none, none, 1, "USD", "u", Availability.inStock, 0⟩ =
      Except.error EngineError.invalidQuery) ∧
    (score ⟨"a", none, none, none, none⟩
        ⟨"s", "t", none, none, none, 1, "USD", "u", Availability.inStock, 0⟩ =
      Except.ok (scoreValid ⟨"a", none, none, none, none⟩
        ⟨"s", "t", none, none, none, 1, "USD", "u", Availability.inStock, 0⟩)) := by
  constructor
  · exact (score_invalidQuery_iff_empty_name ⟨"", none, none, none, none⟩
      ⟨"s", "t", none, none, none, 1, "USD", "u", Availability.inStock, 0⟩).1.mpr rfl
  · exact (score_invalidQuery_iff_empty_name ⟨"a", none, none, none, none⟩
      ⟨"s", "t", none, none, none, 1, "USD", "u", Availability.inStock, 0⟩).2 (by decide)

/-- C7: the brand sub-score (the same `fieldScore` realises the category sub-score) is
1 exactly when both sides are present and case-insensitively equal, 0 exactly when both
are present and unequal, and whenever either side is absent it is the neutral 1/2 —
absence is never scored as a match (1) or a mismatch (0). -/
theorem fieldScore_characterisation (qf cf : Option String) :
    (fieldScore qf cf = 1 ↔
      ∃ q c, qf = some q ∧ cf = some c ∧ lowerStr q = lowerStr c) ∧
    (fieldScore qf cf = 0 ↔
      ∃ q c, qf = some q ∧ cf = some c ∧ lowerStr q ≠ lowerStr c) ∧
    ((qf = none ∨ cf = none) → fieldScore qf cf = 1/2) := by
  match qf, cf with
  | none, none => refine ⟨by simp [fieldScore], by simp [fieldScore], by simp [fieldScore]⟩
  | none, some c => refine ⟨by simp [fieldScore], by simp [fieldScore], by simp [fieldScore]⟩
  | some q, none => refine ⟨by simp [fieldScore], by simp [fieldScore], by simp [fieldScore]⟩
  | some q, some c =>
    by_cases h : lowerStr q = lowerStr c
    · refine ⟨by simp [fieldScore, h], ?_, by simp⟩
      simp only [fieldScore, if_pos h]
      constructor
      · intro h1; norm_num at h1
      · rintro ⟨q', c', hq, hc, hne⟩
        cases hq; cases hc; exact absurd h hne
    · refine ⟨?_, ?_, by simp⟩
      · simp only [fieldScore, if_neg h]
        constructor
        · intro h1; norm_num at h1
        · rintro ⟨q', c', hq, hc, heq⟩
          cases hq; cases hc; exact absurd heq h
      · constructor
        · intro _; exact ⟨q, c, rfl, rfl, h⟩
        · intro _; simp [fieldScore, h]

/-- C7 witness: the present-and-unequal case scores 0 at a concrete pair, discharging
the implication hypothesis of the characterisation at `(none, none)` as well. -/
theorem fieldScore_characterisation_witness :
    fieldScore (some "A") (some "b") = 0 ∧ fieldScore none (some "b") = 1/2 := by
  constructor
  · exact (fieldScore_characterisation (some "A") (some "b")).2.1.mpr
      ⟨"A", "b", rfl, rfl, by decide⟩
  · exact (fieldScore_characterisation none (some "b")).2.2 (Or.inl rfl)

/-- C6 counterexample: a valid query (`name = "a"`, brand `"b"`, category `"c"`,
description `"d"`, no extracted text) and a candidate with identical title, brand,
category and description score 3/4, not 1: the candidate's text blob is
`"a d"` (title plus description) while the query's is `"a"`, so the title/text
sub-score is only 1/2. -/
theorem score_identical_fields_counterexample :
    score ⟨"a", some "b", some "c", some "d", none⟩
        ⟨"s", "a", some "b", some "c", some "d", 1, "USD", "u", Availability.inStock, 0⟩ =
      Except.ok (3/4) ∧ ((3 : ℚ)/4) ≠ 1 := by
  constructor
  · have ht : textSim "a" "a d" = 1/2 := by
      have h1 : tokenSet "a" ∪ tokenSet "a d" ≠ ∅ := by decide
      have h2 : (tokenSet "a" ∩ tokenSet "a d").card = 1 := by decide
      have h3 : (tokenSet "a" ∪ tokenSet "a d").card = 2 := by decide
      rw [textSim, jaccard, if_neg h1, h2, h3]
      norm_num
    have hq : queryText ⟨"a", some "b", some "c", some "d", none⟩ = "a" := rfl
    have hc : candText
        ⟨"s", "a", some "b", some "c", some "d", 1, "USD", "u", Availability.inStock, 0⟩ =
        "a d" := rfl
    rw [score, if_neg (by decide : ¬ ("a" = ""))]
    congr 1
    rw [scoreValid, hq, hc, ht]
    have hd : descScore ⟨"a", some "b", some "c", some "d", none⟩
        ⟨"s", "a", some "b", some "c", some "d", 1, "USD", "u", Availability.inStock, 0⟩ =
        1 := by
      simp [descScore, textSim_self]
    rw [hd]
    simp [fieldScore]
    norm_num
  · norm_num

/-- C6 (amended): the score is exactly 1 for a candidate whose title, brand, category
and description are identical to the query's name, brand, category and description,
provided brand, category and description are all present and the query's
`extractedText` is present and equal to its description (so that the two text blobs
coincide). As stated the claim fails: an absent optional field contributes the neutral
1/2 sub-score, and the candidate's description enters the candidate text blob while
the query side carries only `name` (+ `extractedText`). -/
theorem score_identical_fields_eq_one (q : ProductQuery) (c : RawOffer) (b cat d : String)
    (hname : q.name ≠ "") (hqb : q.brand = some b) (hqc : q.category = some cat)
    (hqd : q.description = some d) (hqe : q.extractedText = some d)
    (hct : c.title = q.name) (hcb : c.brand = some b) (hcc : c.category = some cat)
    (hcd : c.description = some d) :
    score q c = Except.ok 1 := by
  rw [score, if_neg hname]
  congr 1
  have h1 : queryText q = q.name ++ " " ++ d := by simp [queryText, hqe]
  have h2 : candText c = q.name ++ " " ++ d := by simp [candText, hcd, hct]
  have h3 : descScore q c = 1 := by simp [descScore, hqd, hcd, textSim_self]
  rw [scoreValid, h1, h2, textSim_self, h3, hqb, hcb, hqc, hcc]
  simp [fieldScore]
  norm_num

/-- C6 witness: the amended statement applied at a concrete query and candidate. -/
theorem score_identical_fields_eq_one_witness :
    score ⟨"a", some "b", some "c", some "d", some "d"⟩
        ⟨"s", "a", some "b", some "c", some "d", 1, "USD", "u", Availability.inStock, 0⟩ =
      Except.ok 1 :=
  score_identical_fields_eq_one
    ⟨"a", some "b", some "c", some "d", some "d"⟩
    ⟨"s", "a", some "b", some "c", some "d", 1, "USD", "u", Availability.inStock, 0⟩
    "b" "c" "d" (by decide) rfl rfl rfl rfl rfl rfl rfl rfl

open Frontend in
/-- C8: whenever the upload or the search HTTP call fails (non-ok response or thrown
error), `handleImageUpload` stores the hard-coded mock `SearchResponse` — iPhone offers
priced 1199.99, 1149.99 and 999.99 — and that state is literally identical to the one a
successful search returning those offers would produce, so the user cannot tell a
failed backend call from a successful search with those results. -/
theorem handleImageUpload_failure_shows_mock (now : String)
    (upload : HttpOutcome UploadProductInfo)
    (search : UploadProductInfo → HttpOutcome FESearchResponse)
    (hfail : (∀ info, upload ≠ HttpOutcome.ok info) ∨
      (∃ info, upload = HttpOutcome.ok info ∧ ∀ r, search info ≠ HttpOutcome.ok r)) :
    handleImageUpload now upload search = mockResponse now ∧
    ((mockResponse now).exactMatches.map fun o => o.priceInfo.price) =
      [119999/100, 114999/100] ∧
    ((mockResponse now).similarProducts.map fun o => o.priceInfo.price) = [99999/100] ∧
    (∀ info, handleImageUpload now (HttpOutcome.ok info)
        (fun _ => HttpOutcome.ok (mockResponse now)) = mockResponse now) := by
  refine ⟨?_, rfl, rfl, fun info => rfl⟩
  rcases hfail with h | ⟨info, hup, hs⟩
  · cases upload with
    | ok info => exact absurd rfl (h info)
    | notOk => rfl
    | threw => rfl
  · subst hup
    cases hsi : search info with
    | ok r => exact absurd hsi (hs r)
    | notOk => simp [handleImageUpload, hsi]
    | threw => simp [handleImageUpload, hsi]

open Frontend in
/-- C8 witness: a non-ok upload response at a concrete input yields exactly the mock
response. -/
theorem handleImageUpload_failure_shows_mock_witness :
    handleImageUpload "t" HttpOutcome.notOk (fun _ => HttpOutcome.notOk) =
      mockResponse "t" :=
  (handleImageUpload_failure_shows_mock "t" HttpOutcome.notOk (fun _ => HttpOutcome.notOk)
    (Or.inl fun _ h => nomatch h)).1

open Frontend in
/-- C9: `ImageUpload.handleFile` uploads (invokes `onUpload` after setting the preview)
exactly when the file's MIME type starts with "image/", rejects with an alert exactly
otherwise, and is independent of the file's size — in particular every image-typed file
strictly larger than the documented 10MB maximum still uploads. -/
theorem handleFile_image_type_only (f : BrowserFile) :
    (handleFile f = UploadAction.uploaded ↔ strStartsWith f.mimeType "image/" = true) ∧
    (handleFile f = UploadAction.rejectedWithAlert ↔
      strStartsWith f.mimeType "image/" = false) ∧
    (∀ n : Nat, handleFile ⟨f.name, f.mimeType, n⟩ = handleFile f) ∧
    (10 * 1024 * 1024 < f.size → strStartsWith f.mimeType "image/" = true →
      handleFile f = UploadAction.uploaded) := by
  cases h : strStartsWith f.mimeType "image/" <;>
    simp [Frontend.handleFile, h]

open Frontend in
/-- C9 witness: a 20MB PNG-typed file, well over the documented 10MB limit, still
uploads. -/
theorem handleFile_image_type_only_witness :
    10 * 1024 * 1024 < 20971520 ∧
    handleFile ⟨"big.png", "image/png", 20971520⟩ = UploadAction.uploaded :=
  ⟨by norm_num,
    (handleFile_image_type_only ⟨"big.png", "image/png", 20971520⟩).2.2.2
      (by norm_num) (by decide)⟩

open Frontend in
/-- C10: `ProductCard.getAvailabilityText` returns exactly one of three labels — "In
Stock" iff the lower-cased availability contains "in_stock", otherwise "Limited Stock"
iff it contains "limited", otherwise "Check Availability" — so "out_of_stock" and
"unknown" availabilities get no distinct out-of-stock label. -/
theorem getAvailabilityText_three_labels (a : String) :
    (getAvailabilityText a = "In Stock" ↔ strContains (lowerStr a) "in_stock" = true) ∧
    (getAvailabilityText a = "Limited Stock" ↔
      (strContains (lowerStr a) "in_stock" = false ∧
        strContains (lowerStr a) "limited" = true)) ∧
    (getAvailabilityText a = "Check Availability" ↔
      (strContains (lowerStr a) "in_stock" = false ∧
        strContains (lowerStr a) "limited" = false)) ∧
    (getAvailabilityText a = "In Stock" ∨ getAvailabilityText a = "Limited Stock" ∨
      getAvailabilityText a = "Check Availability") ∧
    getAvailabilityText "out_of_stock" = "Check Availability" ∧
    getAvailabilityText "unknown" = "Check Availability" := by
  refine ⟨?_, ?_, ?_, ?_, by decide, by decide⟩ <;>
    cases h1 : strContains (lowerStr a) "in_stock" <;>
      cases h2 : strContains (lowerStr a) "limited" <;>
        simp [Frontend.getAvailabilityText, h1, h2]

/-- Sorting a bucket neither adds nor removes groups: membership in a ranked bucket is
membership in the underlying bucket. -/
theorem mem_rankBucket (trust : List (String × ℚ)) (dflt : ℚ) (l : List MatchGroup)
    (a : MatchGroup) : a ∈ rankBucket trust dflt l ↔ a ∈ l := by
  have h1 : ∀ p : Nat × MatchGroup, p ∈ rankedTagged trust dflt l ↔ p ∈ l.enum :=
    fun p => List.mem_mergeSort
  constructor
  · intro h
    rcases List.mem_map.mp h with ⟨p, hp, hpa⟩
    have : a ∈ l.enum.map Prod.snd := List.mem_map.mpr ⟨p, (h1 p).mp hp, hpa⟩
    rwa [List.enum_map_snd] at this
  · intro h
    have h2 : a ∈ l.enum.map Prod.snd := by rw [List.enum_map_snd]; exact h
    rcases List.mem_map.mp h2 with ⟨p, hp, hpa⟩
    exact List.mem_map.mpr ⟨p, (h1 p).mpr hp, hpa⟩

/-- C1: `rank` partitions the produced groups with no overlap — a produced group is in
`exactMatches` iff its similarity score is at least `exactMatchThreshold`, in
`similarProducts` iff its score is in `[similarThreshold, exactMatchThreshold)`, groups
below `similarThreshold` appear in neither sequence, and no group appears in both. -/
theorem rank_partitions (trust : List (String × ℚ)) (dflt : ℚ) (groups : List MatchGroup)
    (queried succeeded : Nat) (elapsed : ℚ) (g : MatchGroup) (hg : g ∈ groups) :
    (g ∈ (rank trust dflt groups queried succeeded elapsed).exactMatches ↔
      exactMatchThreshold ≤ g.similarityScore) ∧
    (g ∈ (rank trust dflt groups queried succeeded elapsed).similarProducts ↔
      (similarThreshold ≤ g.similarityScore ∧ g.similarityScore < exactMatchThreshold)) ∧
    ¬(g ∈ (rank trust dflt groups queried succeeded elapsed).exactMatches ∧
      g ∈ (rank trust dflt groups queried succeeded elapsed).similarProducts) := by
  have hex : g ∈ (rank trust dflt groups queried succeeded elapsed).exactMatches ↔
      exactMatchThreshold ≤ g.similarityScore := by
    show g ∈ rankBucket trust dflt (exactBucket groups) ↔ _
    rw [mem_rankBucket]
    simp [exactBucket, List.mem_filter, hg]
  have hsim : g ∈ (rank trust dflt groups queried succeeded elapsed).similarProducts ↔
      (similarThreshold ≤ g.similarityScore ∧ g.similarityScore < exactMatchThreshold) := by
    show g ∈ rankBucket trust dflt (similarBucket groups) ↔ _
    rw [mem_rankBucket]
    simp [similarBucket, List.mem_filter, hg]
  refine ⟨hex, hsim, ?_⟩
  rintro ⟨h1, h2⟩
  exact absurd (hex.mp h1) (not_le.mpr (hsim.mp h2).2)

/-- A sample offer used to instantiate witnesses. -/
def sampleOffer : RawOffer :=
  ⟨"s", "t", none, none, none, 1, "USD", "u", Availability.inStock, 0⟩

/-- A sample group with similarity score 9/10 (an exact match) used in witnesses. -/
def sampleExactGroup : MatchGroup :=
  ⟨sampleOffer, [sampleOffer], 9/10, true⟩

/-- C1 witness: the partition property applied to a concrete one-group list. -/
theorem rank_partitions_witness :
    sampleExactGroup ∈ [sampleExactGroup] ∧
    ((sampleExactGroup ∈ (rank [] 0 [sampleExactGroup] 1 1 0).exactMatches ↔
        exactMatchThreshold ≤ sampleExactGroup.similarityScore) ∧
      (sampleExactGroup ∈ (rank [] 0 [sampleExactGroup] 1 1 0).similarProducts ↔
        (similarThreshold ≤ sampleExactGroup.similarityScore ∧
          sampleExactGroup.similarityScore < exactMatchThreshold)) ∧
      ¬(sampleExactGroup ∈ (rank [] 0 [sampleExactGroup] 1 1 0).exactMatches ∧
        sampleExactGroup ∈ (rank [] 0 [sampleExactGroup] 1 1 0).similarProducts)) :=
  ⟨List.mem_singleton.mpr rfl,
    rank_partitions [] 0 [sampleExactGroup] 1 1 0 sampleExactGroup
      (List.mem_singleton.mpr rfl)⟩

/-- C4: when every adapter fails, `aggregate` still returns a well-formed
`AggregationResult` — empty `exactMatches` and `similarProducts` and
`sourcesSucceeded = 0` — rather than raising an error (by type, `aggregate` is total,
so no single adapter failure can abort the request). -/
theorem aggregate_all_failed (q : ProductQuery) (rs : List FetchOutcome)
    (trust : List (String × ℚ)) (dflt elapsed : ℚ)
    (hfail : ∀ r ∈ rs, r = FetchOutcome.failure) :
    aggregate q rs trust dflt elapsed =
      { exactMatches := [], similarProducts := [], sourcesQueried := rs.length,
        sourcesSucceeded := 0, elapsedMs := elapsed } := by
  have hoff : collectOffers rs = [] := by
    induction rs with
    | nil => rfl
    | cons r t ih =>
      have hr := hfail r (List.mem_cons_self r t)
      subst hr
      have ht : collectOffers t = [] := ih fun x hx => hfail x (List.mem_cons_of_mem _ hx)
      simpa [collectOffers] using ht
  have hcnt : countSucceeded rs = 0 := by
    clear hoff
    induction rs with
    | nil => rfl
    | cons r t ih =>
      have hr := hfail r (List.mem_cons_self r t)
      subst hr
      have ht : countSucceeded t = 0 := ih fun x hx => hfail x (List.mem_cons_of_mem _ hx)
      simpa [countSucceeded, List.countP_cons] using ht
  rw [aggregate, hoff, hcnt]
  have hgroups : scoreGroups q (group (canonSort [])) = [] := by
    simp [canonSort, group, scoreGroups]
  rw [hgroups]
  simp [rank, rankBucket, rankedTagged, exactBucket, similarBucket]

/-- C4 witness: a single failed adapter yields the empty result with
`sourcesSucceeded = 0`. -/
theorem aggregate_all_failed_witness :
    aggregate ⟨"a", none, none, none, none⟩ [FetchOutcome.failure] [] 0 0 =
      { exactMatches := [], similarProducts := [], sourcesQueried := 1,
        sourcesSucceeded := 0, elapsedMs := 0 } :=
  aggregate_all_failed ⟨"a", none, none, none, none⟩ [FetchOutcome.failure] [] 0 0
    (by simp)

/-- The composite ranking comparison is total. -/
theorem rankLE_total (trust : List (String × ℚ)) (dflt : ℚ) (a b : Nat × MatchGroup) :
    rankLE trust dflt a b || rankLE trust dflt b a := by
  simp only [rankLE, Bool.or_eq_true, decide_eq_true_eq]
  rcases lt_trichotomy (keyPrice a.2) (keyPrice b.2) with h | h | h
  · exact Or.inl (Or.inl h)
  · rcases lt_trichotomy b.2.similarityScore a.2.similarityScore with h2 | h2 | h2
    · exact Or.inl (Or.inr ⟨h, Or.inl h2⟩)
    · rcases lt_trichotomy (keyTrust trust dflt b.2) (keyTrust trust dflt a.2) with h3 | h3 | h3
      · exact Or.inl (Or.inr ⟨h, Or.inr ⟨h2.symm, Or.inl h3⟩⟩)
      · rcases Nat.le_total a.1 b.1 with h4 | h4
        · exact Or.inl (Or.inr ⟨h, Or.inr ⟨h2.symm, Or.inr ⟨h3.symm, h4⟩⟩⟩)
        · exact Or.inr (Or.inr ⟨h.symm, Or.inr ⟨h2, Or.inr ⟨h3, h4⟩⟩⟩)
      · exact Or.inr (Or.inr ⟨h.symm, Or.inr ⟨h2, Or.inl h3⟩⟩)
    · exact Or.inr (Or.inr ⟨h.symm, Or.inl h2⟩)
  · exact Or.inr (Or.inl h)

/-- The composite ranking comparison is transitive. -/
theorem rankLE_trans (trust : List (String × ℚ)) (dflt : ℚ) (a b c : Nat × MatchGroup)
    (h1 : rankLE trust dflt a b) (h2 : rankLE trust dflt b c) :
    rankLE trust dflt a c := by
  simp only [rankLE, decide_eq_true_eq] at h1 h2 ⊢
  rcases h1 with h1 | ⟨hp1, h1⟩
  · rcases h2 with h2 | ⟨hp2, h2⟩
    · exact Or.inl (lt_trans h1 h2)
    · exact Or.inl (hp2 ▸ h1)
  · rcases h2 with h2 | ⟨hp2, h2⟩
    · exact Or.inl (hp1 ▸ h2)
    · refine Or.inr ⟨hp1.trans hp2, ?_⟩
      rcases h1 with h1 | ⟨hs1, h1⟩
      · rcases h2 with h2 | ⟨hs2, h2⟩
        · exact Or.inl (by linarith)
        · exact Or.inl (by linarith)
      · rcases h2 with h2 | ⟨hs2, h2⟩
        · exact Or.inl (by linarith)
        · refine Or.inr ⟨hs1.trans hs2, ?_⟩
          rcases h1 with h1 | ⟨ht1, h1⟩
          · rcases h2 with h2 | ⟨ht2, h2⟩
            · exact Or.inl (by linarith)
            · exact Or.inl (by linarith)
          · rcases h2 with h2 | ⟨ht2, h2⟩
            · exact Or.inl (by linarith)
            · exact Or.inr ⟨ht1.trans ht2, Nat.le_trans h1 h2⟩

/-- The price-minimising fold over a nonempty pool returns a member of the pool whose
price is a lower bound of every pool member's price. -/
theorem foldl_minBy_spec (x : RawOffer) (xs : List RawOffer) :
    (xs.foldl (fun b o => if o.price < b.price then o else b) x) ∈ x :: xs ∧
    ∀ o ∈ x :: xs,
      (xs.foldl (fun b o => if o.price < b.price then o else b) x).price ≤ o.price := by
  induction xs generalizing x with
  | nil =>
    refine ⟨List.mem_cons_self x [], ?_⟩
    intro o ho
    rcases List.mem_cons.mp ho with h | h
    · exact le_of_eq (congrArg RawOffer.price h.symm)
    · cases h
  | cons y ys ih =>
    have step : List.foldl (fun b o => if o.price < b.price then o else b) x (y :: ys) =
        List.foldl (fun b o => if o.price < b.price then o else b)
          (if y.price < x.price then y else x) ys := rfl
    rcases ih (if y.price < x.price then y else x) with ⟨hmem, hmin⟩
    have hfxy : (if y.price < x.price then y else x) ∈ x :: y :: ys := by
      by_cases h : y.price < x.price
      · simp [h]
      · simp [h]
    have hle_x : (if y.price < x.price then y else x).price ≤ x.price := by
      by_cases h : y.price < x.price
      · simp [h]; exact le_of_lt h
      · simp [h]
    have hle_y : (if y.price < x.price then y else x).price ≤ y.price := by
      by_cases h : y.price < x.price
      · simp [h]
      · simp [h]; exact le_of_not_lt h
    constructor
    · rw [step]
      rcases List.mem_cons.mp hmem with h | h
      · rw [h]; exact hfxy
      · exact List.mem_cons_of_mem _ (List.mem_cons_of_mem _ h)
    · intro o ho
      rw [step]
      have hhead := hmin _ (List.mem_cons_self _ _)
      rcases List.mem_cons.mp ho with h | h
      · exact le_trans hhead (h ▸ hle_x)
      · rcases List.mem_cons.mp h with h' | h'
        · exact le_trans hhead (h' ▸ hle_y)
        · exact hmin o (List.mem_cons_of_mem _ h')

/-- C2: within each bucket the Ranker's output is sorted by the three-level key and is
a permutation of the bucket's position-tagged groups; the comparison holds between two
tagged groups exactly when the first has the strictly lower representative price, or
equal price and strictly higher similarity, or equal price and similarity and strictly
higher source trust, or all three keys equal and the earlier original position (the
stable tie-break); and the representative price is the minimum over the in-stock
members, falling back to all members only when no member is in stock. -/
theorem rank_bucket_sorted (trust : List (String × ℚ)) (dflt : ℚ)
    (groups : List MatchGroup) :
    (rankedTagged trust dflt (exactBucket groups)).Pairwise
      (fun a b => rankLE trust dflt a b = true) ∧
    (rankedTagged trust dflt (similarBucket groups)).Pairwise
      (fun a b => rankLE trust dflt a b = true) ∧
    (rankedTagged trust dflt (exactBucket groups)).Perm (exactBucket groups).enum ∧
    (rankedTagged trust dflt (similarBucket groups)).Perm (similarBucket groups).enum ∧
    (∀ a b : Nat × MatchGroup,
      rankLE trust dflt a b = true ↔
        (keyPrice a.2 < keyPrice b.2
          ∨ (keyPrice a.2 = keyPrice b.2
              ∧ (b.2.similarityScore < a.2.similarityScore
                  ∨ (a.2.similarityScore = b.2.similarityScore
                      ∧ (keyTrust trust dflt b.2 < keyTrust trust dflt a.2
                          ∨ (keyTrust trust dflt a.2 = keyTrust trust dflt b.2
                              ∧ a.1 ≤ b.1))))))) ∧
    (∀ g : MatchGroup, g.members ≠ [] →
      bestOffer g ∈ bestPool g ∧ ∀ o ∈ bestPool g, keyPrice g ≤ o.price) := by
  refine ⟨?_, ?_, ?_, ?_, ?_, ?_⟩
  · exact List.sorted_mergeSort (rankLE_trans trust dflt) (rankLE_total trust dflt) _
  · exact List.sorted_mergeSort (rankLE_trans trust dflt) (rankLE_total trust dflt) _
  · exact List.mergeSort_perm _ _
  · exact List.mergeSort_perm _ _
  · intro a b
    simp [rankLE]
  · intro g hg
    have hpool : bestPool g ≠ [] := by
      unfold bestPool
      by_cases h : (inStockMembers g).isEmpty
      · simp [h, hg]
      · simpa [h] using (by simpa [List.isEmpty_iff] using h)
    rcases hp : bestPool g with _ | ⟨x, xs⟩
    · exact absurd hp hpool
    · have hb : bestOffer g = xs.foldl (fun b o => if o.price < b.price then o else b) x := by
        unfold bestOffer
        rw [hp]
      rcases foldl_minBy_spec x xs with ⟨hmem, hmin⟩
      constructor
      · rw [hb]; exact hmem
      · intro o ho
        unfold keyPrice
        rw [hb]
        exact hmin o ho

/-- C2 witness: the sortedness statement applied at a concrete one-group list,
discharging the nonempty-members hypothesis of the minimum-price conjunct. -/
theorem rank_bucket_sorted_witness :
    sampleExactGroup.members ≠ [] ∧
    (bestOffer sampleExactGroup ∈ bestPool sampleExactGroup ∧
      ∀ o ∈ bestPool sampleExactGroup, keyPrice sampleExactGroup ≤ o.price) :=
  ⟨by simp [sampleExactGroup],
    (rank_bucket_sorted [] 0 [sampleExactGroup]).2.2.2.2.2 sampleExactGroup
      (by simp [sampleExactGroup])⟩

/-- The canonical comparison holds exactly when the source name is lexicographically
smaller, or the source names coincide and the url is lexicographically no larger. -/
theorem offerKeyLE_iff (a b : RawOffer) :
    offerKeyLE a b = true ↔
      (a.sourceName.data < b.sourceName.data ∨
        (a.sourceName = b.sourceName ∧ a.url.data ≤ b.url.data)) := by
  simp [offerKeyLE, Bool.or_eq_true, Bool.and_eq_true, decide_eq_true_eq, beq_iff_eq]

/-- The canonical comparison is total. -/
theorem offerKeyLE_total (a b : RawOffer) : offerKeyLE a b || offerKeyLE b a := by
  simp only [Bool.or_eq_true, offerKeyLE_iff]
  rcases lt_trichotomy a.sourceName.data b.sourceName.data with h | h | h
  · exact Or.inl (Or.inl h)
  · have hs : a.sourceName = b.sourceName := String.ext h
    rcases le_total a.url.data b.url.data with h2 | h2
    · exact Or.inl (Or.inr ⟨hs, h2⟩)
    · exact Or.inr (Or.inr ⟨hs.symm, h2⟩)
  · exact Or.inr (Or.inl h)

/-- The canonical comparison is transitive. -/
theorem offerKeyLE_trans (a b c : RawOffer) (h1 : offerKeyLE a b) (h2 : offerKeyLE b c) :
    offerKeyLE a c := by
  rw [offerKeyLE_iff] at h1 h2 ⊢
  rcases h1 with h1 | ⟨hs1, h1⟩
  · rcases h2 with h2 | ⟨hs2, h2⟩
    · exact Or.inl (lt_trans h1 h2)
    · exact Or.inl (hs2 ▸ h1)
  · rcases h2 with h2 | ⟨hs2, h2⟩
    · exact Or.inl (by rw [hs1]; exact h2)
    · exact Or.inr ⟨hs1.trans hs2, le_trans h1 h2⟩

/-- Two offers below each other in the canonical comparison share the canonical
(`sourceName`, `url`) key. -/
theorem offerKeyLE_antisymm (a b : RawOffer) (h1 : offerKeyLE a b) (h2 : offerKeyLE b a) :
    offerKey a = offerKey b := by
  rw [offerKeyLE_iff] at h1 h2
  rcases h1 with h1 | ⟨hs1, h1⟩
  · rcases h2 with h2 | ⟨hs2, h2⟩
    · exact absurd (lt_trans h1 h2) (lt_irrefl _)
    · rw [hs2] at h1
      exact absurd h1 (lt_irrefl _)
  · rcases h2 with h2 | ⟨hs2, h2⟩
    · rw [hs1] at h2
      exact absurd h2 (lt_irrefl _)
    · have hu : a.url = b.url := String.ext (le_antisymm h1 h2)
      unfold offerKey
      rw [hs1, hu]

/-- A list sorted by the canonical comparison is determined by its multiset of
elements, provided the canonical keys are pairwise distinct: two sorted permutations of
each other are equal. -/
theorem sorted_perm_nodupKeys_eq (l1 : List RawOffer) :
    ∀ l2 : List RawOffer, l1.Perm l2 →
      l1.Pairwise (fun a b => offerKeyLE a b = true) →
      l2.Pairwise (fun a b => offerKeyLE a b = true) →
      (l2.map offerKey).Nodup → l1 = l2 := by
  induction l1 with
  | nil =>
    intro l2 hperm _ _ _
    exact hperm.nil_eq
  | cons a t1 ih =>
    intro l2 hperm hs1 hs2 hnd
    cases l2 with
    | nil => exact absurd hperm.eq_nil (List.cons_ne_nil a t1)
    | cons b t2 =>
      by_cases hab : a = b
      · subst hab
        congr 1
        exact ih t2 hperm.cons_inv (List.pairwise_cons.mp hs1).2
          (List.pairwise_cons.mp hs2).2
          (List.nodup_cons.mp (by simpa using hnd)).2
      · have hal2 : a ∈ b :: t2 := hperm.mem_iff.mp (List.mem_cons_self a t1)
        have hat2 : a ∈ t2 := by
          rcases List.mem_cons.mp hal2 with h | h
          · exact absurd h hab
          · exact h
        have hbl1 : b ∈ a :: t1 := hperm.mem_iff.mpr (List.mem_cons_self b t2)
        have hbt1 : b ∈ t1 := by
          rcases List.mem_cons.mp hbl1 with h | h
          · exact absurd h.symm hab
          · exact h
        have h1 : offerKeyLE a b = true := (List.pairwise_cons.mp hs1).1 b hbt1
        have h2 : offerKeyLE b a = true := (List.pairwise_cons.mp hs2).1 a hat2
        have hkey : offerKey a = offerKey b := offerKeyLE_antisymm a b h1 h2
        have hmem : offerKey a ∈ t2.map offerKey := List.mem_map_of_mem offerKey hat2
        rw [hkey] at hmem
        exact absurd hmem (List.nodup_cons.mp (by simpa using hnd)).1

/-- Canonical ordering erases arrival order: permuted inputs with pairwise-distinct
(`sourceName`, `url`) keys canonicalise to the same list. -/
theorem canonSort_eq_of_perm (l1 l2 : List RawOffer) (hperm : l1.Perm l2)
    (hkeys : (l1.map offerKey).Nodup) :
    canonSort l1 = canonSort l2 := by
  have hp1 : (canonSort l1).Perm l1 := List.mergeSort_perm l1 _
  have hp2 : (canonSort l2).Perm l2 := List.mergeSort_perm l2 _
  have hperm' : (canonSort l1).Perm (canonSort l2) :=
    hp1.trans (hperm.trans hp2.symm)
  have hnd2 : ((canonSort l2).map offerKey).Nodup :=
    ((hperm.trans hp2.symm).map offerKey).nodup hkeys
  exact sorted_perm_nodupKeys_eq (canonSort l1) (canonSort l2) hperm'
    (List.sorted_mergeSort offerKeyLE_trans offerKeyLE_total l1)
    (List.sorted_mergeSort offerKeyLE_trans offerKeyLE_total l2)
    hnd2

/-- C3: `group` is a pure function (deterministic for a fixed input order), and after
canonical sorting by (`sourceName`, `url`) it is invariant under the arrival order:
for any two arrival orders of the same offer multiset whose canonical keys are
pairwise distinct (the spec's invariant — `url` unique within a source), grouping the
canonically sorted offers produces the same sequence of MatchGroups. -/
theorem group_reorder_invariant (l1 l2 : List RawOffer) (hperm : l1.Perm l2)
    (hkeys : (l1.map offerKey).Nodup) :
    group (canonSort l1) = group (canonSort l2) :=
  congrArg group (canonSort_eq_of_perm l1 l2 hperm hkeys)

/-- A second sample offer, with a distinct source and url, used in witnesses. -/
def sampleOffer2 : RawOffer :=
  ⟨"s2", "t2", none, none, none, 2, "USD", "u2", Availability.inStock, 0⟩

/-- C3 witness: two arrival orders of the same two offers group identically after
canonicalisation. -/
theorem group_reorder_invariant_witness :
    ([sampleOffer, sampleOffer2].Perm [sampleOffer2, sampleOffer] ∧
      ([sampleOffer, sampleOffer2].map offerKey).Nodup) ∧
    group (canonSort [sampleOffer, sampleOffer2]) =
      group (canonSort [sampleOffer2, sampleOffer]) :=
  ⟨⟨List.Perm.swap sampleOffer2 sampleOffer [], by decide⟩,
    group_reorder_invariant [sampleOffer, sampleOffer2] [sampleOffer2, sampleOffer]
      (List.Perm.swap sampleOffer2 sampleOffer []) (by decide)⟩

end VisionPriceHunt

